import Mathlib

/-!
Verification of the Casper-Bridge relayer (relayer/src) against its
natural-language specification.

The definitions below are a shallow embedding of the TypeScript sources:

* relayer/src/signature-utils.ts   - CasperSigner hex helpers and message
  construction (hexToBytes, bytesToHex, createMessage);
* relayer/src/casper-monitor.ts    - the Casper watcher; the repository ships
  two variants of this file, and the variant with trackDeploy /
  checkPendingDeploys / the full submitReleaseProof is the one required by
  relayer/src/index.ts (which calls trackDeploy), so that variant is embedded;
* relayer/src/ethereum-monitor.ts  - the Ethereum watcher (pollEvents,
  processBlocks, submitMintProof).

JavaScript numbers that hold block heights are embedded as Int (the code
computes head - confirmationBlocks, which may be negative); uint256 / BigInt
amounts are embedded as Nat; strings stay String.  RPC results, key material
and cryptographic primitives are abstracted as explicit environment records:
the embedding never stubs a branch of the relayer's own control flow.
-/

namespace CasperBridge

/-! ## Hex helpers (signature-utils.ts, CasperSigner) -/

/-- Value of one hexadecimal digit character, as JavaScript parseInt accepts
them: 0-9, a-f, A-F.  Returns none on any other character. -/
def hexDigitVal (c : Char) : Option Nat :=
  let n := c.toNat
  if 48 ≤ n ∧ n ≤ 57 then some (n - 48)
  else if 97 ≤ n ∧ n ≤ 102 then some (n - 87)
  else if 65 ≤ n ∧ n ≤ 70 then some (n - 55)
  else none

/-- Character a JavaScript number-to-string conversion with radix 16 emits for
a digit value below 16 (lowercase). -/
def toHexDigit (n : Nat) : Char :=
  if n < 10 then Char.ofNat (48 + n) else Char.ofNat (87 + n)

/-- The two characters of b.toString(16).padStart(2, brace-zero-brace) for a
Uint8Array entry b < 256 (signature-utils.ts bytesToHex, line 193-195). -/
def byteToHex (b : Nat) : List Char :=
  if b < 16 then ['0', toHexDigit b]
  else [toHexDigit (b / 16), toHexDigit (b % 16)]

/-- Concatenation of the per-byte hex pairs (the map/join of bytesToHex). -/
def hexDigitsOf (bs : List Nat) : List Char :=
  bs.foldr (fun b acc => byteToHex b ++ acc) []

/-- CasperSigner.bytesToHex (signature-utils.ts lines 192-196): the string 0x
followed by two lowercase hex digits per byte. -/
def bytesToHex (bs : List Nat) : String :=
  ⟨'0' :: 'x' :: hexDigitsOf bs⟩

/-- One step of hex.replace with the anchored regex stripping a single leading
0x occurrence (signature-utils.ts line 184). -/
def stripHexMark (cs : List Char) : List Char :=
  match cs with
  | c0 :: c1 :: r => if c0 = '0' ∧ c1 = 'x' then r else c0 :: c1 :: r
  | l => l

/-- JavaScript parseInt(two-character chunk, 16) as stored into a Uint8Array
entry: NaN is stored as 0; a valid first digit followed by an invalid second
character parses the one-digit value (parseInt takes the longest digit
prefix). -/
def jsHexPairVal (c1 c2 : Char) : Nat :=
  match hexDigitVal c1 with
  | none => 0
  | some v1 =>
    match hexDigitVal c2 with
    | none => v1
    | some v2 => 16 * v1 + v2

/-- The loop of hexToBytes: consume the character list two at a time
(hex.substr(i, 2) for i = 0, 2, ...). -/
def pairBytes : List Char → List Nat
  | c1 :: c2 :: r => jsHexPairVal c1 c2 :: pairBytes r
  | _ => []

/-- CasperSigner.hexToBytes (signature-utils.ts lines 182-190): strip one
optional leading 0x, then parse two characters per byte.  An odd remaining
length makes new Uint8Array(hex.length / 2) throw a RangeError (fractional
typed-array length), embedded as none. -/
def hexToBytes (s : String) : Option (List Nat) :=
  let cs := stripHexMark s.toList
  if cs.length % 2 = 1 then none else some (pairBytes cs)

/-- Predicate: c is a lowercase hexadecimal digit character. -/
def isLowerHexDigit (c : Char) : Prop :=
  (48 ≤ c.toNat ∧ c.toNat ≤ 57) ∨ (97 ≤ c.toNat ∧ c.toNat ≤ 102)

instance (c : Char) : Decidable (isLowerHexDigit c) := by
  unfold isLowerHexDigit; infer_instance

/-! ## Nonce derivation (casper-monitor.ts parseLockEvent) -/

/-- Numeric value of a list of hex digit characters, most significant first. -/
def hexListVal (ds : List Char) : Nat :=
  ds.foldl (fun a c => 16 * a + (hexDigitVal c).getD 0) 0

/-- JavaScript parseInt(s, 16) accepts an optional leading 0x or 0X mark;
this is that first step, on inputs without sign or surrounding whitespace
(the inputs reachable here are substrings of deploy hashes). -/
def stripIntMark (cs : List Char) : List Char :=
  match cs with
  | c0 :: c1 :: r =>
    if c0 = '0' ∧ (c1 = 'x' ∨ c1 = 'X') then r else c0 :: c1 :: r
  | l => l

/-- JavaScript parseInt(s, 16) as above: after the optional radix mark, the
longest prefix of hex digits gives the value; none models NaN (no digit at
all). -/
def jsParseIntHex (s : String) : Option Nat :=
  let ds := (stripIntMark s.toList).takeWhile (fun c => (hexDigitVal c).isSome)
  if ds.isEmpty then none else some (hexListVal ds)

/-- Nonce derivation of the Casper monitor (casper-monitor.ts line 185 and
line 207 of the trackDeploy variant): parseInt(deployHash.substring(0, 8), 16).
none models NaN. -/
def casperNonce (deployHash : String) : Option Nat :=
  jsParseIntHex ⟨deployHash.toList.take 8⟩

/-! ## Casper monitor data model (casper-monitor.ts) -/

/-- Session item of a deploy: session.storedContractByHash respectively
session.StoredContractByHash.  Argument values carry value.parsed with a
falsy parsed field already collapsed to the empty string. -/
structure StoredContract where
  hash : String
  entry_point : String
  args : List (String × String)
deriving DecidableEq

/-- Deploy session: the monitor reads both the lowercase field
session.storedContractByHash (checkDeployForLockEvent, line 291) and the
capitalised field session.StoredContractByHash (parseLockEvent line 326,
parseLockEventFromDeploy line 171); in a JSON deploy these are distinct
properties, so both are kept. -/
structure DeploySession where
  storedLower : Option StoredContract
  storedUpper : Option StoredContract
deriving DecidableEq

/-- The parts of a fetched deploy the monitor reads. -/
structure DeployData where
  session : Option DeploySession
  account : String
deriving DecidableEq

/-- Outcome of casperClient.getDeploy as the monitor branches on it:
a thrown RPC error, a deploy with no execution result yet, or an executed
deploy with its success flag (Success / Version2 error_message collapsed to
one boolean, which is exactly how the code consumes them). -/
inductive DeployFetch where
  | fetchError
  | notExecuted
  | executed (success : Bool) (dep : DeployData)
deriving DecidableEq

/-- The event object emitted on the AssetLocked channel
(casper-monitor.ts parseLockEvent return value).  nonce is Option Nat:
none models a NaN parseInt result. -/
structure LockEvent where
  sourceChain : String
  sourceTxHash : String
  amount : String
  destinationChain : String
  destinationAddress : String
  nonce : Option Nat
  sender : String
deriving DecidableEq

/-- Mutable fields of the CasperMonitor object that the lock-event pipeline
touches, plus a log of the AssetLocked emissions of the run.  index.ts
(lines 245-248) invokes submitMintProof once per emission, so the emitted
log counts destination-chain submission invocations. -/
structure CasperState where
  processedDeploys : List String
  pendingDeploys : List String
  emitted : List LockEvent
deriving DecidableEq

/-- The RPC surface and configuration one Casper poll tick consumes.
confirmationBlocks is part of CasperMonitorConfig; the monitor never reads
it.  heightOf gives the chain height of a block hash; the block returned by
getLatestBlockInfo has height head. -/
structure CasperEnv where
  vaultContract : String
  confirmationBlocks : Int
  head : Int
  latestBlock : Option String
  heightOf : String → Int
  blockDeploys : String → Option (List String)
  getDeploy : String → DeployFetch

/-- Last assignment wins over the args loop (for name-value pairs, each match
overwrites the variable), with the empty string when the name never occurs. -/
def lastArg (args : List (String × String)) (name : String) : String :=
  args.foldl (fun acc p => if p.1 = name then p.2 else acc) ""

/-- casper-monitor.ts parseLockEvent (trackDeploy variant lines 324-362):
read args from session.StoredContractByHash, require the three fields
non-empty, derive the nonce from the deploy hash. -/
def parseLockEvent (dep : DeployData) (deployHash : String) : Option LockEvent :=
  match dep.session with
  | none => none
  | some s =>
    match s.storedUpper with
    | none => none
    | some sc =>
      if lastArg sc.args "destination_chain" = "" ∨
          lastArg sc.args "destination_address" = "" ∨
          lastArg sc.args "amount" = "" then none
      else
        some { sourceChain := "casper", sourceTxHash := deployHash,
               amount := lastArg sc.args "amount",
               destinationChain := lastArg sc.args "destination_chain",
               destinationAddress := lastArg sc.args "destination_address",
               nonce := casperNonce deployHash, sender := dep.account }

/-- Remove the first occurrence of a pattern from a character list: the
behaviour of the JavaScript string replace with a plain-string pattern and
empty replacement. -/
def stripFirst (pat : List Char) : List Char → List Char
  | [] => []
  | c :: rest =>
    if pat.isPrefixOf (c :: rest) then (c :: rest).drop pat.length
    else c :: stripFirst pat rest

/-- vaultContract.replace of the hash- mark with the empty string
(casper-monitor.ts line 179 of the trackDeploy variant). -/
def stripHashMark (s : String) : String :=
  ⟨stripFirst "hash-".toList s.toList⟩

/-- casper-monitor.ts parseLockEventFromDeploy (trackDeploy variant lines
167-224): same field extraction as parseLockEvent but the contract-hash and
entry-point filter happens here, against the vault hash without its
hash- mark. -/
def parseLockEventFromDeploy (env : CasperEnv) (dep : DeployData)
    (deployHash : String) : Option LockEvent :=
  match dep.session with
  | none => none
  | some s =>
    match s.storedUpper with
    | none => none
    | some sc =>
      if sc.hash ≠ stripHashMark env.vaultContract ∨ sc.entry_point ≠ "lock_cspr" then none
      else
        if lastArg sc.args "destination_chain" = "" ∨
            lastArg sc.args "destination_address" = "" ∨
            lastArg sc.args "amount" = "" then none
        else
          some { sourceChain := "casper", sourceTxHash := deployHash,
                 amount := lastArg sc.args "amount",
                 destinationChain := lastArg sc.args "destination_chain",
                 destinationAddress := lastArg sc.args "destination_address",
                 nonce := casperNonce deployHash, sender := dep.account }

/-- casper-monitor.ts checkDeployForLockEvent (trackDeploy variant lines
273-322): fetch the deploy, mark failures and foreign deploys processed,
filter on the lowercase storedContractByHash session against the configured
vault hash (kept verbatim, without stripping the hash- mark), and on a parsed
lock event emit AssetLocked and mark the deploy processed.  A deploy whose
parse returns null is not marked processed. -/
def checkDeployForLockEvent (env : CasperEnv) (st : CasperState)
    (h : String) : CasperState :=
  match env.getDeploy h with
  | .fetchError => st
  | .notExecuted => st
  | .executed success dep =>
    if success = false then
      { st with processedDeploys := h :: st.processedDeploys }
    else
      match dep.session with
      | none => { st with processedDeploys := h :: st.processedDeploys }
      | some s =>
        match s.storedLower with
        | none => { st with processedDeploys := h :: st.processedDeploys }
        | some sc =>
          if sc.hash ≠ env.vaultContract ∨ sc.entry_point ≠ "lock_cspr" then
            { st with processedDeploys := h :: st.processedDeploys }
          else
            match parseLockEvent dep h with
            | none => st
            | some ev =>
              { st with emitted := st.emitted ++ [ev],
                        processedDeploys := h :: st.processedDeploys }

/-- casper-monitor.ts checkBlockForLockEvents (lines 247-271): iterate the
deploy hashes of the block, skipping any hash already in processedDeploys;
a getBlockInfo error or a block without deploy_hashes does nothing. -/
def checkBlockForLockEvents (env : CasperEnv) (st : CasperState)
    (blockHash : String) : CasperState :=
  match env.blockDeploys blockHash with
  | none => st
  | some hs =>
    hs.foldl
      (fun s h =>
        if h ∈ s.processedDeploys then s else checkDeployForLockEvent env s h)
      st

/-- One pending deploy of checkPendingDeploys (trackDeploy variant lines
71-165): errors and not-yet-executed deploys stay pending; failed deploys
leave the pending set; a parsed lock event is emitted and marked processed;
a non-lock deploy just leaves the pending set.  No processedDeploys
membership test guards this emission. -/
def checkPendingOne (env : CasperEnv) (st : CasperState) (h : String) :
    CasperState :=
  match env.getDeploy h with
  | .fetchError => st
  | .notExecuted => st
  | .executed success dep =>
    if success = false then
      { st with pendingDeploys := st.pendingDeploys.erase h }
    else
      match parseLockEventFromDeploy env dep h with
      | some ev =>
        { st with emitted := st.emitted ++ [ev],
                  processedDeploys := h :: st.processedDeploys,
                  pendingDeploys := st.pendingDeploys.erase h }
      | none => { st with pendingDeploys := st.pendingDeploys.erase h }

/-- casper-monitor.ts checkPendingDeploys: iterate the pending set (the JS
for-of loop deletes only the entry under iteration, so iterating the entry
snapshot is exact). -/
def checkPendingDeploys (env : CasperEnv) (st : CasperState) : CasperState :=
  st.pendingDeploys.foldl (checkPendingOne env) st

/-- One tick of casper-monitor.ts pollEvents (trackDeploy variant lines
226-245): fetch the latest block, scan exactly that block when it has a
hash, then check the pending deploys.  No cursor exists and
confirmationBlocks is never consulted. -/
def casperPollTick (env : CasperEnv) (st : CasperState) : CasperState :=
  let st1 :=
    match env.latestBlock with
    | some bh => checkBlockForLockEvents env st bh
    | none => st
  checkPendingDeploys env st1

/-- The block whose deploys a Casper poll tick scans: the latest block
itself (pollEvents passes latestBlock.block.hash to
checkBlockForLockEvents). -/
def casperScannedBlock (env : CasperEnv) : Option String :=
  env.latestBlock

/-- The monitor state at process start (fields initialised at lines 35-39). -/
def initialCasperState : CasperState :=
  { processedDeploys := [], pendingDeploys := [], emitted := [] }

/-- Fold a run of poll ticks over a list of per-tick RPC environments. -/
def casperRun (envs : List CasperEnv) (st : CasperState) : CasperState :=
  envs.foldl (fun s e => casperPollTick e s) st

/-- Number of AssetLocked emissions for one source transaction identifier;
by the wiring in index.ts this is the number of submitMintProof invocations
for that identifier. -/
def countEmits (h : String) (st : CasperState) : Nat :=
  (st.emitted.filter (fun e => e.sourceTxHash == h)).length

/-! ## Ethereum monitor (ethereum-monitor.ts) -/

/-- One AssetBurned log as queryFilter returns it; hasArgs models the
type guard (args in event) at line 122.  The uint256 values amount and
nonce are embedded as Nat (the emit converts them with toString and the
Casper monitor converts back with BigInt, a value-preserving round trip). -/
structure RawBurnLog where
  user : String
  amount : Nat
  destinationChain : String
  destinationAddress : String
  nonce : Nat
  blockNumber : Int
  txHash : String
  hasArgs : Bool
deriving DecidableEq

/-- The object emitted on the AssetBurned channel (lines 131-139); index.ts
(lines 250-253) passes it to submitReleaseProof. -/
structure BurnEvent where
  user : String
  amount : Nat
  destinationChain : String
  destinationAddress : String
  nonce : Nat
  blockNumber : Int
  txHash : String
deriving DecidableEq

/-- Field selection of the emit at lines 131-139. -/
def toBurnEvent (l : RawBurnLog) : BurnEvent :=
  { user := l.user, amount := l.amount, destinationChain := l.destinationChain,
    destinationAddress := l.destinationAddress, nonce := l.nonce,
    blockNumber := l.blockNumber, txHash := l.txHash }

/-- The RPC surface one Ethereum poll tick consumes: getBlockNumber (none
models a thrown error), and per chunk the queryFilter outcome (queryOk
false models a thrown query, caught at line 142 and skipped) and its
logs. -/
structure EthEnv where
  confirmationBlocks : Int
  headResult : Option Int
  queryOk : Int → Int → Bool
  logs : Int → Int → List RawBurnLog

/-- Chunk loop of processBlocks (lines 108-148) with MAX_BLOCKS_PER_QUERY
= 10, written with explicit fuel so it computes structurally; each
iteration advances currentFrom by at least one, so fuel hi + 1 - lo covers
the whole loop. -/
def chunkGo (hi : Int) : Nat → Int → List (Int × Int)
  | 0, _ => []
  | n + 1, cur =>
    if cur ≤ hi then (cur, min (cur + 9) hi) :: chunkGo hi n (min (cur + 9) hi + 1)
    else []

/-- The currentFrom-currentTo query ranges processBlocks issues for the
block range lo..hi. -/
def chunkRanges (lo hi : Int) : List (Int × Int) :=
  chunkGo hi (hi + 1 - lo).toNat lo

/-- Position p is covered by one of the query ranges of the scan of
lo..hi. -/
def inChunks (lo hi p : Int) : Prop :=
  ∃ r ∈ chunkRanges lo hi, r.1 ≤ p ∧ p ≤ r.2

instance (lo hi p : Int) : Decidable (inChunks lo hi p) := by
  unfold inChunks; infer_instance

/-- ethereum-monitor.ts processBlocks (lines 104-149): query each chunk;
a failed chunk is logged and skipped (the comment at line 144 reads:
continue to next range even if this one fails), so processBlocks itself
never throws; events with args are emitted in order. -/
def processBlocks (env : EthEnv) (lo hi : Int) : List BurnEvent :=
  (chunkRanges lo hi).foldl
    (fun acc r =>
      if env.queryOk r.1 r.2 then
        acc ++ ((env.logs r.1 r.2).filter (fun l => l.hasArgs)).map toBurnEvent
      else acc)
    []

/-- One tick of ethereum-monitor.ts pollEvents (lines 86-102): on a head
read the cursor advances to head minus confirmationBlocks whenever that
exceeds it, with the range in between scanned; a thrown head query is
caught and leaves the cursor alone.  Returns the new cursor and the events
emitted this tick. -/
def ethPollTick (env : EthEnv) (cursor : Int) : Int × List BurnEvent :=
  match env.headResult with
  | none => (cursor, [])
  | some head =>
    let confirmationBlock := head - env.confirmationBlocks
    if confirmationBlock > cursor then
      (confirmationBlock, processBlocks env (cursor + 1) confirmationBlock)
    else (cursor, [])

/-! ## Submission executors (submitMintProof / submitReleaseProof) -/

/-- The ProcessedRecord of the specification, section 3.  Modelled from the
spec: the relayer sources define no such record; the definition exists so
that statements about record states can be made against the code. -/
inductive RecordStatus where
  | pending
  | submitted
  | confirmed
  | failed
deriving DecidableEq

/-- Modelled from the spec: ProcessedRecord fields (spec section 3). -/
structure ProcessedRecord where
  sourceTxId : String
  status : RecordStatus
  destinationTxId : Option String
  attempts : Nat
deriving DecidableEq

/-- The proof object submitMintProof passes to contract.mint
(ethereum-monitor.ts lines 179-188).  The signature is produced by the
abstract signing environment. -/
structure MintProof where
  sourceChain : String
  sourceTxHash : String
  amount : String
  recipient : String
  nonce : Option Nat
  validatorSignatures : List String
deriving DecidableEq

/-- Key material and destination gateway of submitMintProof:
createMessageHash (solidity packed keccak) and signMessage are opaque
cryptographic functions of the relayer key; mintResult is the
contract.mint call (error models a rejected or reverted transaction) and
waitResult the tx.wait confirmation poll. -/
structure EthSubmitEnv where
  createMessageHash : String → String → String → String → String → String
  signMessage : String → String
  mintResult : MintProof → Except String String
  waitResult : String → Except String String

/-- The string submitMintProof passes for the nonce: nonce.toString(); a
NaN nonce stringifies to NaN. -/
def nonceToString (n : Option Nat) : String :=
  match n with
  | some v => toString v
  | none => "NaN"

/-- ethereum-monitor.ts submitMintProof steps 1-3 (lines 160-188): the
proof submitted to Ethereum carries lockEvent.amount unchanged; no decimal
conversion between the 9-decimal Casper amount and the 18-decimal wCSPR
unit happens anywhere in this function. -/
def buildMintProof (env : EthSubmitEnv) (ev : LockEvent) : MintProof :=
  let srcTx := if ev.sourceTxHash = "" then "0x0" else ev.sourceTxHash
  let messageHash :=
    env.createMessageHash "casper" srcTx ev.amount ev.destinationAddress
      (nonceToString ev.nonce)
  { sourceChain := "casper", sourceTxHash := srcTx, amount := ev.amount,
    recipient := ev.destinationAddress, nonce := ev.nonce,
    validatorSignatures := [env.signMessage messageHash] }

/-- Result of one submitMintProof call: how many times contract.mint was
invoked, the record state the code leaves behind (the function writes no
monitor field and maintains no ProcessedRecord, hence none on every path),
and the outcome (error models the rethrown exception of line 202). -/
structure MintRunResult where
  mintCalls : Nat
  record : Option ProcessedRecord
  outcome : Except String String

/-- ethereum-monitor.ts submitMintProof steps 1-4 (lines 151-204): build
the proof, call contract.mint exactly once, await tx.wait; any error is
logged and rethrown with no retry loop around the broadcast. -/
def submitMintRun (env : EthSubmitEnv) (ev : LockEvent) : MintRunResult :=
  let proof := buildMintProof env ev
  match env.mintResult proof with
  | .error e => { mintCalls := 1, record := none, outcome := .error e }
  | .ok tx =>
    match env.waitResult tx with
    | .error e => { mintCalls := 1, record := none, outcome := .error e }
    | .ok receipt => { mintCalls := 1, record := none, outcome := .ok receipt }

/-- CasperSigner.createMessage (signature-utils.ts lines 120-149): the
pipe-separated header followed by the recipient bytes, at string level
(TextEncoder on both sides makes byte equality string equality). -/
def createMessage (sourceChain sourceTxHash amount recipient nonce : String) :
    String :=
  sourceChain ++ "|" ++ sourceTxHash ++ "|" ++ amount ++ "|" ++ nonce ++ recipient

/-- Signing environment of submitReleaseProof: Ed25519 signing and the
relayer public key are opaque. -/
structure CasperSubmitEnv where
  signMessage : String → String
  publicKey : String

/-- The proof record submitted to the release_cspr entry point
(casper-monitor.ts trackDeploy variant lines 401-414). -/
structure ReleaseProof where
  source_chain : String
  source_tx_hash : String
  amount : Nat
  recipient : String
  nonce : Nat
  validator_public_key : String
  validator_signature : String
deriving DecidableEq

/-- casper-monitor.ts submitReleaseProof steps 1-3 (trackDeploy variant
lines 367-414): amountInMotes = BigInt(burnEvent.amount) / BigInt(10^9)
(BigInt division truncates), then the message is created and signed over
the truncated amount and the proof assembled.  No branch checks the
truncated amount against zero and no error value exists for dust: the
function always produces a proof. -/
def buildReleaseProof (env : CasperSubmitEnv) (ev : BurnEvent) : ReleaseProof :=
  let amountInWei := ev.amount
  let amountInMotes := amountInWei / 1000000000
  let srcTx := if ev.txHash = "" then "0x0" else ev.txHash
  let message :=
    createMessage "ethereum" srcTx (toString amountInMotes)
      ev.destinationAddress (toString ev.nonce)
  { source_chain := "ethereum", source_tx_hash := srcTx,
    amount := amountInMotes, recipient := ev.destinationAddress,
    nonce := ev.nonce, validator_public_key := env.publicKey,
    validator_signature := env.signMessage message }

/-! ## The polling loop as a step machine (pollEvents / stop) -/

/-- Control state of the while loop of pollEvents (both monitors, identical
shape): the isRunning test at the loop head, the scan body, a pending
sleep with its remaining duration, and loop exit.  sleep (line 263) is a
bare setTimeout promise with no cancellation hook, so a sleeping state
counts down regardless of the isRunning flag; the flag is consulted only
at the loop head. -/
inductive LoopPhase where
  | check
  | scanning
  | sleeping (remaining : Nat)
  | stopped
deriving DecidableEq

/-- One step of the polling loop under a fixed isRunning flag (stop() only
writes that flag, lines 81-84 / 60-63) and a fixed pollInterval. -/
def loopStep (running : Bool) (interval : Nat) : LoopPhase → LoopPhase
  | .check => if running then .scanning else .stopped
  | .scanning => .sleeping interval
  | .sleeping (n + 1) => .sleeping n
  | .sleeping 0 => .check
  | .stopped => .stopped

/-! ## Concrete instances used by the counterexamples and witnesses -/

/-- A successful lock_cspr deploy session against vault hash vaultA, with
complete arguments.  The fetched JSON carries the stored-contract item
under both property spellings the monitor reads. -/
def lockDeployA : DeployData :=
  { session :=
      some { storedLower :=
               some { hash := "vaultA", entry_point := "lock_cspr",
                      args := [("destination_chain", "ethereum"),
                               ("destination_address", "0xrecipient"),
                               ("amount", "5000000000")] },
             storedUpper :=
               some { hash := "vaultA", entry_point := "lock_cspr",
                      args := [("destination_chain", "ethereum"),
                               ("destination_address", "0xrecipient"),
                               ("amount", "5000000000")] } },
    account := "account-hash-sender" }

/-- Deploy hash of the concrete lock deploy (64 hex characters). -/
def deployHashA : String :=
  "aabbccdd00112233445566778899aabbccdd00112233445566778899aabbccdd"

/-- A tick environment in which the latest block contains deployHashA and
the same hash is also in the pending set: the reachable state after the
frontend submitted the deploy through the api submit-deploy endpoint
(index.ts line 115 calls trackDeploy) and the block scan then finds the
executed deploy. -/
def envDouble : CasperEnv :=
  { vaultContract := "vaultA", confirmationBlocks := 3, head := 100,
    latestBlock := some "blockB",
    heightOf := fun _ => 100,
    blockDeploys := fun b => if b = "blockB" then some [deployHashA] else none,
    getDeploy := fun h =>
      if h = deployHashA then .executed true lockDeployA else .fetchError }

/-- Monitor state with deployHashA tracked as pending, nothing processed. -/
def stateWithPendingA : CasperState :=
  { processedDeploys := [], pendingDeploys := [deployHashA], emitted := [] }

/-- A tick environment at head 100 whose latest block is at height 100,
for a watcher configured with confirmation depth 3. -/
def envHead100 : CasperEnv :=
  { vaultContract := "vaultA", confirmationBlocks := 3, head := 100,
    latestBlock := some "block100",
    heightOf := fun b => if b = "block100" then 100 else 0,
    blockDeploys := fun _ => some [],
    getDeploy := fun _ => .fetchError }

/-- An AssetBurned log lost to a failed chunk query: block 5, inside the
chunk 1-10. -/
def lostLog : RawBurnLog :=
  { user := "0xuser", amount := 7000000000000000000,
    destinationChain := "casper", destinationAddress := "account-hash-r",
    nonce := 4, blockNumber := 5, txHash := "0xlost", hasArgs := true }

/-- Ethereum tick environment for the chunk-failure scenario: head 14,
depth 3, so the scan covers 1..11 in chunks 1-10 and 11-11; the query for
chunk 1-10 throws and is skipped, losing lostLog. -/
def envChunkFail : EthEnv :=
  { confirmationBlocks := 3, headResult := some 14,
    queryOk := fun a b => !(a == 1 && b == 10),
    logs := fun a b => if a == 1 && b == 10 then [lostLog] else [] }

/-- Two AssetBurned logs produced by one Ethereum transaction (one
transaction may call burn twice, and the contract issues consecutive
counter nonces): same transactionHash, nonces 1 and 2. -/
def burnLogN1 : RawBurnLog :=
  { user := "0xuser", amount := 1000000000000000000,
    destinationChain := "casper", destinationAddress := "account-hash-r",
    nonce := 1, blockNumber := 12, txHash := "0xsametx", hasArgs := true }

/-- Second log of the same transaction, next counter nonce. -/
def burnLogN2 : RawBurnLog :=
  { user := "0xuser", amount := 2000000000000000000,
    destinationChain := "casper", destinationAddress := "account-hash-r",
    nonce := 2, blockNumber := 12, txHash := "0xsametx", hasArgs := true }

/-- Ethereum tick environment delivering the two same-transaction burn
logs: head 15, depth 3, cursor 11 scans the single chunk 12-12. -/
def envTwinBurns : EthEnv :=
  { confirmationBlocks := 3, headResult := some 15,
    queryOk := fun _ _ => true,
    logs := fun a b => if a == 12 && b == 12 then [burnLogN1, burnLogN2] else [] }

/-- Concrete signing environment for release proofs (signature bytes are
irrelevant to the stated properties). -/
def someCasperSubmitEnv : CasperSubmitEnv :=
  { signMessage := fun m => "ed25519:" ++ m, publicKey := "pkA" }

/-- A Burned event whose 18-decimal amount is 1, below one mote. -/
def burnEventDust : BurnEvent :=
  { user := "0xuser", amount := 1, destinationChain := "casper",
    destinationAddress := "account-hash-r", nonce := 9, blockNumber := 3,
    txHash := "0xdust" }

/-- Concrete mint submission environment whose contract.mint call is
rejected at execution level with an already-processed error. -/
def envMintRejected : EthSubmitEnv :=
  { createMessageHash := fun a b c d e => a ++ b ++ c ++ d ++ e,
    signMessage := fun m => "ecdsa:" ++ m,
    mintResult := fun _ => .error "execution reverted: Nonce already processed",
    waitResult := fun t => .ok t }

/-- Concrete mint submission environment that succeeds (used to discharge
hypotheses at a concrete input). -/
def envMintOk : EthSubmitEnv :=
  { createMessageHash := fun a b c d e => a ++ b ++ c ++ d ++ e,
    signMessage := fun m => "ecdsa:" ++ m,
    mintResult := fun _ => .ok "0xtx",
    waitResult := fun t => .ok t }

/-- The Locked event of spec scenario A: amount 5,000,000,000 in the
9-decimal source unit. -/
def lockEventA : LockEvent :=
  { sourceChain := "casper", sourceTxHash := deployHashA,
    amount := "5000000000", destinationChain := "ethereum",
    destinationAddress := "0xrecipient", nonce := casperNonce deployHashA,
    sender := "account-hash-sender" }

/-- Ethereum tick environment with an unreachable gateway: getBlockNumber
throws. -/
def envHeadFail : EthEnv :=
  { confirmationBlocks := 3, headResult := none,
    queryOk := fun _ _ => true, logs := fun _ _ => [] }

/-- Ethereum tick environment at head 100, depth 3, empty chain. -/
def envEthHead100 : EthEnv :=
  { confirmationBlocks := 3, headResult := some 100,
    queryOk := fun _ _ => true, logs := fun _ _ => [] }

/-- Ethereum tick environment at head 101, depth 3, empty chain. -/
def envEthHead101 : EthEnv :=
  { confirmationBlocks := 3, headResult := some 101,
    queryOk := fun _ _ => true, logs := fun _ _ => [] }

/-- A second deploy hash sharing its first 8 characters with deployHashA
but differing afterwards. -/
def deployHashB : String :=
  "aabbccddffffffffffffffffffffffffffffffffffffffffffffffffffffffff"

/-- Invariant carried through a Casper run in which no deploy was
registered through trackDeploy: the identifier h was forwarded at most
once, a forwarded identifier is recorded in processedDeploys, and the
pending set stays empty. -/
def emitInv (h : String) (st : CasperState) : Prop :=
  countEmits h st ≤ 1 ∧ (1 ≤ countEmits h st → h ∈ st.processedDeploys) ∧
    st.pendingDeploys = []

/-! ## Hex helper lemmas -/

theorem hexDigitVal_toHexDigit : ∀ n < 16, hexDigitVal (toHexDigit n) = some n := by
  decide

theorem toHexDigit_lower : ∀ n < 16, isLowerHexDigit (toHexDigit n) := by
  decide

theorem byteToHex_length (b : Nat) : (byteToHex b).length = 2 := by
  unfold byteToHex; split <;> rfl

theorem byteToHex_lower (b : Nat) (hb : b < 256) :
    ∀ c ∈ byteToHex b, isLowerHexDigit c := by
  intro c hc
  unfold byteToHex at hc
  split at hc
  · next hlt =>
    simp only [List.mem_cons, List.not_mem_nil, or_false] at hc
    rcases hc with rfl | rfl
    · decide
    · exact toHexDigit_lower b (by omega)
  · simp only [List.mem_cons, List.not_mem_nil, or_false] at hc
    rcases hc with rfl | rfl
    · exact toHexDigit_lower (b / 16) (by omega)
    · exact toHexDigit_lower (b % 16) (by omega)

theorem jsHexPairVal_byteToHex (b : Nat) (hb : b < 256) :
    ∀ r, pairBytes (byteToHex b ++ r) = b :: pairBytes r := by
  intro r
  by_cases hlt : b < 16
  · have hbh : byteToHex b = ['0', toHexDigit b] := by
      unfold byteToHex; rw [if_pos hlt]
    have hv : jsHexPairVal '0' (toHexDigit b) = b := by
      unfold jsHexPairVal
      rw [show hexDigitVal '0' = some 0 from by decide,
        hexDigitVal_toHexDigit b hlt]
      simp
    rw [hbh]
    show pairBytes ('0' :: toHexDigit b :: r) = b :: pairBytes r
    rw [pairBytes, hv]
  · have hbh : byteToHex b = [toHexDigit (b / 16), toHexDigit (b % 16)] := by
      unfold byteToHex; rw [if_neg hlt]
    have hv : jsHexPairVal (toHexDigit (b / 16)) (toHexDigit (b % 16)) = b := by
      unfold jsHexPairVal
      rw [hexDigitVal_toHexDigit (b / 16) (by omega),
        hexDigitVal_toHexDigit (b % 16) (by omega)]
      simp
      omega
    rw [hbh]
    show pairBytes (toHexDigit (b / 16) :: toHexDigit (b % 16) :: r) =
      b :: pairBytes r
    rw [pairBytes, hv]

theorem hexDigitsOf_cons (b : Nat) (bs : List Nat) :
    hexDigitsOf (b :: bs) = byteToHex b ++ hexDigitsOf bs := rfl

theorem hexDigitsOf_length (bs : List Nat) :
    (hexDigitsOf bs).length = 2 * bs.length := by
  induction bs with
  | nil => rfl
  | cons b bs ih =>
    rw [hexDigitsOf_cons, List.length_append, byteToHex_length, ih,
      List.length_cons]
    ring

theorem hexDigitsOf_lower (bs : List Nat) (hb : ∀ b ∈ bs, b < 256) :
    ∀ c ∈ hexDigitsOf bs, isLowerHexDigit c := by
  induction bs with
  | nil => intro c hc; cases hc
  | cons b bs ih =>
    intro c hc
    rw [hexDigitsOf_cons] at hc
    rcases List.mem_append.mp hc with hc | hc
    · exact byteToHex_lower b (hb b (List.mem_cons_self _ _)) c hc
    · exact ih (fun x hx => hb x (List.mem_cons_of_mem _ hx)) c hc

theorem pairBytes_hexDigitsOf (bs : List Nat) (hb : ∀ b ∈ bs, b < 256) :
    pairBytes (hexDigitsOf bs) = bs := by
  induction bs with
  | nil => rfl
  | cons b bs ih =>
    rw [hexDigitsOf_cons, jsHexPairVal_byteToHex b (hb b (List.mem_cons_self _ _)),
      ih (fun x hx => hb x (List.mem_cons_of_mem _ hx))]

theorem stripHexMark_hexDigits (cs : List Char) (hc : ∀ c ∈ cs, isLowerHexDigit c) :
    stripHexMark cs = cs := by
  match cs with
  | [] => rfl
  | [c] => rfl
  | c0 :: c1 :: r =>
    show (if c0 = '0' ∧ c1 = 'x' then r else c0 :: c1 :: r) = c0 :: c1 :: r
    rw [if_neg]
    intro ⟨h0, h1⟩
    have := hc c1 (List.mem_cons_of_mem _ (List.mem_cons_self _ _))
    rw [h1] at this
    revert this
    decide

/-- C10: for every byte array b, hexToBytes (bytesToHex b) recovers b;
bytesToHex emits 0x followed by exactly two lowercase hex digits per byte;
and the 0x mark is optional on the hexToBytes side (the digit string
without the mark parses to the same bytes). -/
theorem hex_roundtrip_spec (bs : List Nat) (hb : ∀ b ∈ bs, b < 256) :
    hexToBytes (bytesToHex bs) = some bs ∧
    hexToBytes ⟨hexDigitsOf bs⟩ = some bs ∧
    (bytesToHex bs).toList = '0' :: 'x' :: hexDigitsOf bs ∧
    (hexDigitsOf bs).length = 2 * bs.length ∧
    (∀ c ∈ hexDigitsOf bs, isLowerHexDigit c) := by
  have hlow := hexDigitsOf_lower bs hb
  have hlen := hexDigitsOf_length bs
  have heven : (hexDigitsOf bs).length % 2 = 1 → False := by omega
  have hstrip0x : stripHexMark ('0' :: 'x' :: hexDigitsOf bs) = hexDigitsOf bs := by
    show (if ('0' : Char) = '0' ∧ ('x' : Char) = 'x' then hexDigitsOf bs
      else '0' :: 'x' :: hexDigitsOf bs) = hexDigitsOf bs
    rw [if_pos ⟨rfl, rfl⟩]
  refine ⟨?_, ?_, rfl, hlen, hlow⟩
  · unfold hexToBytes
    show (if (stripHexMark ('0' :: 'x' :: hexDigitsOf bs)).length % 2 = 1 then none
      else some (pairBytes (stripHexMark ('0' :: 'x' :: hexDigitsOf bs)))) = some bs
    rw [hstrip0x, if_neg heven, pairBytes_hexDigitsOf bs hb]
  · unfold hexToBytes
    show (if (stripHexMark (hexDigitsOf bs)).length % 2 = 1 then none
      else some (pairBytes (stripHexMark (hexDigitsOf bs)))) = some bs
    rw [stripHexMark_hexDigits _ hlow, if_neg heven, pairBytes_hexDigitsOf bs hb]

/-- Witness for C10 at the concrete byte array 0x00, 0xff, 0xab. -/
theorem hex_roundtrip_spec_witness :
    hexToBytes (bytesToHex [0, 255, 171]) = some [0, 255, 171] :=
  (hex_roundtrip_spec [0, 255, 171] (by decide)).1

/-! ## Nonce derivation lemmas -/

theorem hexDigitVal_getD_lt (c : Char) : (hexDigitVal c).getD 0 < 16 := by
  unfold hexDigitVal
  dsimp only
  split
  · next h => simp only [Option.getD_some]; omega
  · split
    · next h => simp only [Option.getD_some]; omega
    · split
      · next h => simp only [Option.getD_some]; omega
      · simp only [Option.getD_none]; omega

theorem hexFold_lt (l : List Char) :
    ∀ a : Nat,
      l.foldl (fun x c => 16 * x + (hexDigitVal c).getD 0) a < (a + 1) * 16 ^ l.length := by
  induction l with
  | nil =>
    intro a
    rw [List.foldl_nil, List.length_nil, pow_zero, mul_one]
    omega
  | cons c l ih =>
    intro a
    have hd := hexDigitVal_getD_lt c
    have h1 : (16 * a + (hexDigitVal c).getD 0 + 1) ≤ 16 * (a + 1) := by omega
    calc (c :: l).foldl (fun x c => 16 * x + (hexDigitVal c).getD 0) a
        = l.foldl (fun x c => 16 * x + (hexDigitVal c).getD 0)
            (16 * a + (hexDigitVal c).getD 0) := rfl
      _ < (16 * a + (hexDigitVal c).getD 0 + 1) * 16 ^ l.length := ih _
      _ ≤ 16 * (a + 1) * 16 ^ l.length := Nat.mul_le_mul_right _ h1
      _ = (a + 1) * 16 ^ (c :: l).length := by
          rw [List.length_cons, pow_succ]
          ring

theorem hexListVal_lt (l : List Char) : hexListVal l < 16 ^ l.length := by
  simpa [hexListVal] using hexFold_lt l 0

theorem stripIntMark_all_hex (l : List Char)
    (hx : ∀ c ∈ l, (hexDigitVal c).isSome) : stripIntMark l = l := by
  match l with
  | [] => rfl
  | [c] => rfl
  | c0 :: c1 :: r =>
    show (if c0 = '0' ∧ (c1 = 'x' ∨ c1 = 'X') then r else c0 :: c1 :: r) =
      c0 :: c1 :: r
    rw [if_neg]
    intro ⟨h0, h1⟩
    have hc1 := hx c1 (List.mem_cons_of_mem _ (List.mem_cons_self _ _))
    rcases h1 with h1 | h1 <;> rw [h1] at hc1 <;> revert hc1 <;> decide

theorem jsParseIntHex_all_hex (l : List Char) (hne : l ≠ [])
    (hx : ∀ c ∈ l, (hexDigitVal c).isSome) :
    jsParseIntHex ⟨l⟩ = some (hexListVal l) := by
  have htake : l.takeWhile (fun c => (hexDigitVal c).isSome) = l :=
    List.takeWhile_eq_self_iff.mpr hx
  have hmark : stripIntMark (⟨l⟩ : String).toList = l := by
    rw [show (⟨l⟩ : String).toList = l from rfl]
    exact stripIntMark_all_hex l hx
  show (if ((stripIntMark (⟨l⟩ : String).toList).takeWhile
        (fun c => (hexDigitVal c).isSome)).isEmpty then none
      else some (hexListVal ((stripIntMark (⟨l⟩ : String).toList).takeWhile
        (fun c => (hexDigitVal c).isSome)))) = some (hexListVal l)
  rw [hmark, htake, if_neg (by simpa [List.isEmpty_iff] using hne)]

theorem parseLockEvent_fields (dep : DeployData) (h : String) (ev : LockEvent)
    (hp : parseLockEvent dep h = some ev) :
    ev.sourceTxHash = h ∧ ev.nonce = casperNonce h := by
  unfold parseLockEvent at hp
  split at hp
  · cases hp
  · split at hp
    · cases hp
    · split at hp
      · cases hp
      · cases hp
        exact ⟨rfl, rfl⟩

theorem parseLockEventFromDeploy_fields (env : CasperEnv) (dep : DeployData)
    (h : String) (ev : LockEvent)
    (hp : parseLockEventFromDeploy env dep h = some ev) :
    ev.sourceTxHash = h ∧ ev.nonce = casperNonce h := by
  unfold parseLockEventFromDeploy at hp
  split at hp
  · cases hp
  · split at hp
    · cases hp
    · split at hp
      · cases hp
      · split at hp
        · cases hp
        · cases hp
          exact ⟨rfl, rfl⟩

/-- C9: the nonce attached to a Casper lock event is the value of the
first 8 hexadecimal characters of the deploy hash, hence below 2 to the
32; and the derivation is not injective: the two distinct concrete deploy
hashes sharing their first 8 characters receive the same nonce. -/
theorem casper_nonce_first8 :
    (∀ (dep : DeployData) (h : String) (ev : LockEvent),
        parseLockEvent dep h = some ev →
        (h.toList.take 8).length = 8 →
        (∀ c ∈ h.toList.take 8, (hexDigitVal c).isSome) →
        ev.nonce = some (hexListVal (h.toList.take 8)) ∧
          hexListVal (h.toList.take 8) < 2 ^ 32) ∧
    (deployHashA ≠ deployHashB ∧ casperNonce deployHashA = casperNonce deployHashB) := by
  constructor
  · intro dep h ev hp hlen hhex
    have hfields := parseLockEvent_fields dep h ev hp
    have hne : h.toList.take 8 ≠ [] := by
      intro hcon
      rw [hcon] at hlen
      cases hlen
    have hparse := jsParseIntHex_all_hex (h.toList.take 8) hne hhex
    constructor
    · rw [hfields.2]
      unfold casperNonce
      exact hparse
    · have := hexListVal_lt (h.toList.take 8)
      rw [hlen] at this
      calc hexListVal (h.toList.take 8) < 16 ^ 8 := this
        _ = 2 ^ 32 := by norm_num
  · constructor
    · decide
    · decide

/-- Witness for C9: the derivation applied to the concrete lock deploy. -/
theorem casper_nonce_first8_witness :
    lockEventA.nonce = some (hexListVal (deployHashA.toList.take 8)) :=
  (casper_nonce_first8.1 lockDeployA deployHashA lockEventA (by decide)
    (by decide) (by decide)).1

/-! ## Amount conversion (C2, C3) -/

/-- C2, against the shipped code: for the scenario-A Locked event with
amount 5,000,000,000 in the 9-decimal source unit, the proof submitted by
submitMintProof carries the amount string unchanged, not the 18-decimal
value 5,000,000,000,000,000,000 the specification (and the repository's
own fix log, which records a times-10-to-the-9 conversion in
ethereum-monitor.ts) requires. -/
theorem mint_amount_not_converted (env : EthSubmitEnv) :
    (buildMintProof env lockEventA).amount = "5000000000" ∧
    (5000000000 : Nat) * 10 ^ 9 = 5000000000000000000 ∧
    "5000000000" ≠ "5000000000000000000" := by
  refine ⟨rfl, by norm_num, by decide⟩

/-- C3 counterexample: the Burned event with 18-decimal amount 1 does not
produce a ConversionError; submitReleaseProof truncates it to 0 and still
builds and signs the complete zero-amount release proof. -/
theorem release_dust_proof_built_counterexample :
    (buildReleaseProof someCasperSubmitEnv burnEventDust).amount = 0 ∧
    buildReleaseProof someCasperSubmitEnv burnEventDust =
      { source_chain := "ethereum", source_tx_hash := "0xdust", amount := 0,
        recipient := "account-hash-r", nonce := 9,
        validator_public_key := "pkA",
        validator_signature :=
          someCasperSubmitEnv.signMessage
            (createMessage "ethereum" "0xdust" "0" "account-hash-r" "9") } := by
  exact ⟨rfl, rfl⟩

/-- C3 amended: the release conversion is the truncating integer division
by 10 to the 9 (never rounding up), and it is total: every Burned event,
dust included, yields a proof with the truncated amount. -/
theorem release_conversion_truncates (env : CasperSubmitEnv) (ev : BurnEvent) :
    (buildReleaseProof env ev).amount = ev.amount / 1000000000 ∧
    (buildReleaseProof env ev).amount * 1000000000 ≤ ev.amount := by
  refine ⟨rfl, ?_⟩
  exact Nat.div_mul_le_self _ _

/-! ## Nonce provenance (C4) -/

/-- C4 counterexample: in the Ethereum-to-Casper direction the nonce is the
contract's own burn counter, not a function of the source transaction
identifier.  One Ethereum transaction calling burn twice yields two
AssetBurned events with the same transactionHash and consecutive nonces, so
no function of the sourceTxId can reproduce the nonces of one concrete
scanned tick. -/
theorem burn_nonce_not_txid_function_counterexample :
    ¬ ∃ f : String → Nat,
      ∀ e ∈ (ethPollTick envTwinBurns 11).2, e.nonce = f e.txHash := by
  intro ⟨f, hf⟩
  have hl : (ethPollTick envTwinBurns 11).2 =
      [toBurnEvent burnLogN1, toBurnEvent burnLogN2] := by decide
  have h1 := hf (toBurnEvent burnLogN1) (by rw [hl]; exact List.mem_cons_self _ _)
  have h2 := hf (toBurnEvent burnLogN2)
    (by rw [hl]; exact List.mem_cons_of_mem _ (List.mem_cons_self _ _))
  have e1 : (toBurnEvent burnLogN1).nonce = 1 := rfl
  have e2 : (toBurnEvent burnLogN2).nonce = 2 := rfl
  have t1 : (toBurnEvent burnLogN1).txHash = "0xsametx" := rfl
  have t2 : (toBurnEvent burnLogN2).txHash = "0xsametx" := rfl
  rw [e1, t1] at h1
  rw [e2, t2] at h2
  omega

/-- C4 amended: for events observed by the Casper watcher the claim holds:
both lock-event parsers assign nonce = casperNonce of the deploy hash, a
pure function of the sourceTxHash field alone, so any two parses of
deploys with the same hash (by either parser, from any deploy data and any
environment) agree on the nonce. -/
theorem casper_nonce_deterministic (env1 env2 : CasperEnv)
    (d1 d2 : DeployData) (h : String) (ev1 ev2 : LockEvent)
    (h1 : parseLockEvent d1 h = some ev1 ∨
      parseLockEventFromDeploy env1 d1 h = some ev1)
    (h2 : parseLockEvent d2 h = some ev2 ∨
      parseLockEventFromDeploy env2 d2 h = some ev2) :
    ev1.nonce = casperNonce ev1.sourceTxHash ∧ ev1.nonce = ev2.nonce := by
  have f1 : ev1.sourceTxHash = h ∧ ev1.nonce = casperNonce h := by
    rcases h1 with h1 | h1
    · exact parseLockEvent_fields d1 h ev1 h1
    · exact parseLockEventFromDeploy_fields env1 d1 h ev1 h1
  have f2 : ev2.sourceTxHash = h ∧ ev2.nonce = casperNonce h := by
    rcases h2 with h2 | h2
    · exact parseLockEvent_fields d2 h ev2 h2
    · exact parseLockEventFromDeploy_fields env2 d2 h ev2 h2
  refine ⟨?_, ?_⟩
  · rw [f1.1, f1.2]
  · rw [f1.2, f2.2]

/-- Witness for the amended C4 at the concrete lock deploy, parsed twice. -/
theorem casper_nonce_deterministic_witness :
    lockEventA.nonce = casperNonce lockEventA.sourceTxHash :=
  (casper_nonce_deterministic envDouble envDouble lockDeployA lockDeployA
    deployHashA lockEventA lockEventA (Or.inl (by decide)) (Or.inl (by decide))).1

/-! ## Submission executor (C7) -/

/-- C7 counterexample: on the simulated already-processed rejection the
executor makes exactly one contract.mint call and no retry, but no
ProcessedRecord ends in the failed state, because submitMintProof
maintains no record at all: the run result carries none where the claim
requires a record with status failed. -/
theorem mint_rejection_no_failed_record_counterexample :
    (submitMintRun envMintRejected lockEventA).mintCalls = 1 ∧
    (submitMintRun envMintRejected lockEventA).record = none ∧
    (submitMintRun envMintRejected lockEventA).outcome =
      Except.error "execution reverted: Nonce already processed" := by
  exact ⟨rfl, rfl, rfl⟩

/-- C7 amended: on an execution-level rejection of the mint call the
executor performs exactly one contract.mint invocation (there is no retry
loop around the broadcast), rethrows the error to its caller, and records
nothing: no ProcessedRecord exists in the code. -/
theorem mint_rejection_no_retry (env : EthSubmitEnv) (ev : LockEvent)
    (e : String) (hrej : env.mintResult (buildMintProof env ev) = .error e) :
    submitMintRun env ev =
      { mintCalls := 1, record := none, outcome := .error e } := by
  unfold submitMintRun
  dsimp only
  rw [hrej]

/-- Witness for the amended C7 at the concrete rejecting gateway. -/
theorem mint_rejection_no_retry_witness :
    submitMintRun envMintRejected lockEventA =
      { mintCalls := 1, record := none,
        outcome := .error "execution reverted: Nonce already processed" } :=
  mint_rejection_no_retry envMintRejected lockEventA
    "execution reverted: Nonce already processed" rfl

/-! ## Stop semantics (C8) -/

theorem loopStep_false_ne_scanning (s : Nat) (p : LoopPhase) :
    loopStep false s p ≠ .scanning := by
  cases p with
  | check => simp [loopStep]
  | scanning => simp [loopStep]
  | sleeping n => cases n <;> simp [loopStep]
  | stopped => simp [loopStep]

/-- C8 counterexample: stop during a pending sleep of 5 remaining ticks is
not interrupted; the loop keeps sleeping, reaches the isRunning test only
6 steps later, and exits one step after that — the sleep runs to
completion before the polling loop observes the stop signal. -/
theorem stop_sleep_not_interrupted_counterexample :
    loopStep false 4 (.sleeping 5) = .sleeping 4 ∧
    (loopStep false 4)^[6] (.sleeping 5) = .check ∧
    (loopStep false 4)^[7] (.sleeping 5) = .stopped ∧
    (LoopPhase.sleeping 4) ≠ .stopped := by
  refine ⟨rfl, ?_, ?_, by decide⟩ <;> decide

/-- C8 amended: after stop() the watcher never issues another scan (from a
pending sleep or from the loop head, no later phase is the scanning
phase), and the loop terminates — but only after the pending sleep has
run to completion, n + 2 steps from a sleep with n ticks remaining. -/
theorem stop_semantics (s n k : Nat) :
    (loopStep false s)^[k] (.sleeping n) ≠ .scanning ∧
    (loopStep false s)^[n + 2] (.sleeping n) = .stopped ∧
    (loopStep false s)^[k] .check ≠ .scanning := by
  refine ⟨?_, ?_, ?_⟩
  · cases k with
    | zero => simp
    | succ m =>
      rw [Function.iterate_succ_apply']
      exact loopStep_false_ne_scanning s _
  · induction n with
    | zero => rfl
    | succ m ih =>
      have hstep : loopStep false s (.sleeping (m + 1)) = .sleeping m := rfl
      show (loopStep false s)^[m + 2 + 1] (.sleeping (m + 1)) = .stopped
      rw [Function.iterate_succ_apply, hstep]
      exact ih
  · cases k with
    | zero => simp
    | succ m =>
      rw [Function.iterate_succ_apply']
      exact loopStep_false_ne_scanning s _

/-! ## Scan range lemmas (C5, C6) -/

theorem chunkGo_cover (hi : Int) :
    ∀ (n : Nat) (cur p : Int), (hi + 1 - cur).toNat ≤ n →
      ((∃ r ∈ chunkGo hi n cur, r.1 ≤ p ∧ p ≤ r.2) ↔ cur ≤ p ∧ p ≤ hi) := by
  intro n
  induction n with
  | zero =>
    intro cur p hf
    have hlt : hi < cur := by omega
    constructor
    · intro ⟨r, hr, _⟩
      cases hr
    · intro ⟨h1, h2⟩
      omega
  | succ m ih =>
    intro cur p hf
    by_cases hcur : cur ≤ hi
    · have hm1 : cur ≤ min (cur + 9) hi := le_min (by omega) hcur
      have hm2 : min (cur + 9) hi ≤ hi := min_le_right _ _
      have hunf : chunkGo hi (m + 1) cur =
          if cur ≤ hi then
            (cur, min (cur + 9) hi) :: chunkGo hi m (min (cur + 9) hi + 1)
          else [] := rfl
      have hrec := ih (min (cur + 9) hi + 1) p (by omega)
      rw [hunf, if_pos hcur]
      constructor
      · intro ⟨r, hr, hp1, hp2⟩
        rcases List.mem_cons.mp hr with rfl | hr
        · exact ⟨hp1, by omega⟩
        · have := hrec.mp ⟨r, hr, hp1, hp2⟩
          exact ⟨by omega, this.2⟩
      · intro ⟨h1, h2⟩
        by_cases hple : p ≤ min (cur + 9) hi
        · exact ⟨(cur, min (cur + 9) hi), List.mem_cons_self _ _, h1, hple⟩
        · obtain ⟨r, hr, hp1, hp2⟩ := hrec.mpr ⟨by omega, h2⟩
          exact ⟨r, List.mem_cons_of_mem _ hr, hp1, hp2⟩
    · have hunf : chunkGo hi (m + 1) cur =
          if cur ≤ hi then
            (cur, min (cur + 9) hi) :: chunkGo hi m (min (cur + 9) hi + 1)
          else [] := rfl
      rw [hunf, if_neg hcur]
      constructor
      · intro ⟨r, hr, _⟩
        cases hr
      · intro ⟨h1, h2⟩
        omega

theorem inChunks_iff (lo hi p : Int) : inChunks lo hi p ↔ lo ≤ p ∧ p ≤ hi := by
  unfold inChunks chunkRanges
  exact chunkGo_cover hi _ lo p (le_refl _)

/-- C5 amended, the Ethereum watcher side: when the head read succeeds and
head minus confirmationBlocks exceeds the cursor, the tick queries chunks
covering exactly the half-open range from cursor + 1 to head minus
confirmationBlocks (no position outside it) and advances the cursor to
that bound regardless of what the queries return; otherwise the tick
leaves the cursor unchanged and scans nothing. -/
theorem eth_scan_range (env : EthEnv) (c head : Int)
    (hh : env.headResult = some head) :
    (head - env.confirmationBlocks > c →
      (ethPollTick env c).1 = head - env.confirmationBlocks ∧
      ∀ p : Int, inChunks (c + 1) (head - env.confirmationBlocks) p ↔
        (c + 1 ≤ p ∧ p ≤ head - env.confirmationBlocks)) ∧
    (¬ head - env.confirmationBlocks > c → ethPollTick env c = (c, [])) := by
  constructor
  · intro hgt
    constructor
    · unfold ethPollTick
      rw [hh]
      dsimp only
      rw [if_pos hgt]
    · intro p
      exact inChunks_iff _ _ p
  · intro hle
    unfold ethPollTick
    rw [hh]
    dsimp only
    rw [if_neg hle]

/-- Witness for the amended C5: with depth 3 and head 100 the cursor lands
on 97 and position 97 is scanned while 98 is not; the later tick at head
101 advances the cursor from 97 to 98. -/
theorem eth_scan_range_witness :
    (ethPollTick envEthHead100 50).1 = 97 ∧
    (ethPollTick envEthHead101 97).1 = 98 ∧
    inChunks 51 97 97 ∧ ¬ inChunks 51 97 98 := by
  have h100 := eth_scan_range envEthHead100 50 100 rfl
  have h101 := eth_scan_range envEthHead101 97 101 rfl
  refine ⟨?_, ?_, ?_, ?_⟩
  · have := (h100.1 (by decide)).1
    rw [this]
    decide
  · have := (h101.1 (by decide)).1
    rw [this]
    decide
  · exact (inChunks_iff 51 97 97).mpr (by omega)
  · intro hcon
    have := (inChunks_iff 51 97 98).mp hcon
    omega

/-- C5 counterexample, the Casper watcher side: with confirmation depth 3
configured and the chain at head 100, the tick scans the latest block
itself, at height 100, strictly above head minus depth 97; the watcher
has no cursor and never reads its confirmationBlocks configuration. -/
theorem casper_scans_head_counterexample :
    envHead100.confirmationBlocks = 3 ∧
    envHead100.head = 100 ∧
    casperScannedBlock envHead100 = some "block100" ∧
    envHead100.heightOf "block100" = envHead100.head ∧
    ¬ envHead100.heightOf "block100" ≤ envHead100.head - envHead100.confirmationBlocks := by
  refine ⟨rfl, rfl, rfl, rfl, by decide⟩

/-- C6 amended: a failed head query leaves the cursor untouched, so that
range is retried on a later tick. -/
theorem eth_cursor_unmoved_on_head_failure (env : EthEnv) (c : Int)
    (hf : env.headResult = none) : ethPollTick env c = (c, []) := by
  unfold ethPollTick
  rw [hf]

/-- Witness for the amended C6 at the concrete failing gateway. -/
theorem eth_cursor_unmoved_on_head_failure_witness :
    ethPollTick envHeadFail 5 = (5, []) :=
  eth_cursor_unmoved_on_head_failure envHeadFail 5 rfl

/-- C6 counterexample: a failed chunk query inside the range scan is
logged and skipped while the cursor still advances past it.  At head 14,
depth 3, cursor 0, the scan covers 1..11; the query for chunk 1-10 fails
and holds a burn event at block 5, yet the tick returns cursor 11 with no
events: blocks 1-10 are never rescanned and the event is lost. -/
theorem eth_cursor_skips_failed_chunk_counterexample :
    envChunkFail.queryOk 1 10 = false ∧
    envChunkFail.logs 1 10 = [lostLog] ∧
    lostLog.blockNumber = 5 ∧
    inChunks 1 11 5 ∧
    ethPollTick envChunkFail 0 = (11, []) := by
  refine ⟨rfl, rfl, rfl, by decide, by decide⟩

/-! ## At-most-once forwarding (C1) -/

theorem countEmits_congr (h : String) (st st' : CasperState)
    (he : st'.emitted = st.emitted) : countEmits h st' = countEmits h st := by
  unfold countEmits
  rw [he]

theorem countEmits_append (h : String) (st st' : CasperState) (ev : LockEvent)
    (he : st'.emitted = st.emitted ++ [ev]) :
    countEmits h st' = countEmits h st + (if ev.sourceTxHash == h then 1 else 0) := by
  unfold countEmits
  rw [he, List.filter_append, List.length_append]
  congr 1
  by_cases hp : ev.sourceTxHash == h
  · simp [hp]
  · simp [hp]

theorem checkDeploy_cases (env : CasperEnv) (st : CasperState) (h : String) :
    ((checkDeployForLockEvent env st h).emitted = st.emitted ∧
      (checkDeployForLockEvent env st h).pendingDeploys = st.pendingDeploys ∧
      ∀ x ∈ st.processedDeploys, x ∈ (checkDeployForLockEvent env st h).processedDeploys) ∨
    (∃ ev : LockEvent, ev.sourceTxHash = h ∧
      (checkDeployForLockEvent env st h).emitted = st.emitted ++ [ev] ∧
      (checkDeployForLockEvent env st h).pendingDeploys = st.pendingDeploys ∧
      (checkDeployForLockEvent env st h).processedDeploys = h :: st.processedDeploys) := by
  unfold checkDeployForLockEvent
  split
  · left
    exact ⟨rfl, rfl, fun x hx => hx⟩
  · left
    exact ⟨rfl, rfl, fun x hx => hx⟩
  · split
    · left
      exact ⟨rfl, rfl, fun x hx => List.mem_cons_of_mem _ hx⟩
    · split
      · left
        exact ⟨rfl, rfl, fun x hx => List.mem_cons_of_mem _ hx⟩
      · split
        · left
          exact ⟨rfl, rfl, fun x hx => List.mem_cons_of_mem _ hx⟩
        · split
          · left
            exact ⟨rfl, rfl, fun x hx => List.mem_cons_of_mem _ hx⟩
          · split
            · left
              exact ⟨rfl, rfl, fun x hx => hx⟩
            · next ev hev =>
              right
              exact ⟨ev, (parseLockEvent_fields _ _ _ hev).1, rfl, rfl, rfl⟩

theorem emitInv_blockStep (env : CasperEnv) (h d : String) (st : CasperState)
    (hinv : emitInv h st) :
    emitInv h (if d ∈ st.processedDeploys then st
      else checkDeployForLockEvent env st d) := by
  by_cases hd : d ∈ st.processedDeploys
  · rw [if_pos hd]
    exact hinv
  · rw [if_neg hd]
    obtain ⟨hc1, hc2, hc3⟩ := hinv
    rcases checkDeploy_cases env st d with ⟨he, hp, hsub⟩ | ⟨ev, htx, he, hp, hproc⟩
    · refine ⟨?_, ?_, ?_⟩
      · rw [countEmits_congr h st _ he]
        exact hc1
      · intro hge
        rw [countEmits_congr h st _ he] at hge
        exact hsub h (hc2 hge)
      · rw [hp]
        exact hc3
    · have hcnt := countEmits_append h st _ ev he
      by_cases hdh : d = h
      · subst hdh
        have h0 : countEmits d st = 0 := by
          by_contra hne
          exact hd (hc2 (by omega))
        have hiff : (ev.sourceTxHash == d) = true := by
          rw [htx]
          simp
        refine ⟨?_, ?_, ?_⟩
        · rw [hcnt, hiff, h0]
          simp
        · intro _
          rw [hproc]
          exact List.mem_cons_self _ _
        · rw [hp]
          exact hc3
      · have hiff : (ev.sourceTxHash == h) = false := by
          rw [htx]
          simp [hdh]
        refine ⟨?_, ?_, ?_⟩
        · rw [hcnt, hiff]
          simpa using hc1
        · intro hge
          rw [hcnt, hiff] at hge
          simp at hge
          rw [hproc]
          exact List.mem_cons_of_mem _ (hc2 hge)
        · rw [hp]
          exact hc3

theorem emitInv_checkBlock (env : CasperEnv) (bh h : String) (st : CasperState)
    (hinv : emitInv h st) : emitInv h (checkBlockForLockEvents env st bh) := by
  unfold checkBlockForLockEvents
  split
  · exact hinv
  · next hs heq =>
    clear heq
    induction hs generalizing st with
    | nil => exact hinv
    | cons d ds ih =>
      rw [List.foldl_cons]
      exact ih _ (emitInv_blockStep env h d st hinv)

theorem checkPending_empty (env : CasperEnv) (st : CasperState)
    (hp : st.pendingDeploys = []) : checkPendingDeploys env st = st := by
  unfold checkPendingDeploys
  rw [hp, List.foldl_nil]

theorem emitInv_tick (env : CasperEnv) (h : String) (st : CasperState)
    (hinv : emitInv h st) : emitInv h (casperPollTick env st) := by
  unfold casperPollTick
  have hst1 : emitInv h
      (match env.latestBlock with
        | some bh => checkBlockForLockEvents env st bh
        | none => st) := by
    cases env.latestBlock with
    | none => exact hinv
    | some bh => exact emitInv_checkBlock env bh h st hinv
  dsimp only
  rw [checkPending_empty env _ hst1.2.2]
  exact hst1

theorem emitInv_run (envs : List CasperEnv) (h : String) (st : CasperState)
    (hinv : emitInv h st) : emitInv h (casperRun envs st) := by
  unfold casperRun
  induction envs generalizing st with
  | nil => exact hinv
  | cons e es ih =>
    rw [List.foldl_cons]
    exact ih _ (emitInv_tick e h st hinv)

/-- C1 amended: within a run in which no deploy is registered through
trackDeploy (the pending set stays empty, so only the block-scan path
runs), every source transaction identifier is forwarded at most once, for
any sequence of poll-tick environments — rescanning the same block or the
same deploy hash is harmless because processedDeploys is consulted before
each deploy check. -/
theorem lock_forward_at_most_once (envs : List CasperEnv) (h : String) :
    countEmits h (casperRun envs initialCasperState) ≤ 1 := by
  have h0 : countEmits h initialCasperState = 0 := rfl
  exact (emitInv_run envs h initialCasperState ⟨by omega, by omega, rfl⟩).1

/-- C1 counterexample: a deploy that is both registered through
trackDeploy (the api submit-deploy route of index.ts does exactly that
after forwarding the frontend transaction) and then found by the block
scan is forwarded twice in a single poll tick: the block-scan path emits
and records it in processedDeploys, but checkPendingDeploys never
consults processedDeploys and emits it again, so index.ts invokes
submitMintProof twice for the same sourceTxId. -/
theorem lock_forward_twice_counterexample :
    countEmits deployHashA (casperPollTick envDouble stateWithPendingA) = 2 := by
  decide

end CasperBridge
